import Mathlib

set_option maxRecDepth 100000

/- Shallow embedding of the steamreplay tool (src/main.rs): the JSON data
   model, the app-id collector, the playtime record extractor, the
   section-to-month translator, the month formatting of timestamps, and the
   two CSV renderings.  Machine integers are modelled as Nat/Int with
   explicit range guards where the Rust code performs `as_u64`/`as_i64`
   conversions. -/

/-- A `serde_json` number: either an integer (stored as `u64` or `i64` in
serde, here a mathematical `Int` with range guards in the accessors) or a
non-integer float (for which `as_u64`/`as_i64` return `None`). -/
inductive JNum where
  | int : Int → JNum
  | float : JNum
deriving DecidableEq

/-- A `serde_json::Value`.  Objects are association lists with unique keys
(serde's map rejects duplicates by overwriting); `serde_json`'s default
`BTreeMap` iterates in sorted key order, so concrete documents below list
their keys sorted. -/
inductive Json where
  | null : Json
  | bool : Bool → Json
  | num : JNum → Json
  | str : String → Json
  | arr : List Json → Json
  | obj : List (String × Json) → Json

/-- `serde_json::Number::as_u64`: `Some` exactly for integers representable
as `u64`. -/
def as_u64 : JNum → Option Nat
  | .int i => if 0 ≤ i ∧ i < 2 ^ 64 then some i.toNat else none
  | .float => none

/-- `serde_json::Number::as_i64`: `Some` exactly for integers representable
as `i64`. -/
def as_i64 : JNum → Option Int
  | .int i => if -(2 ^ 63) ≤ i ∧ i < 2 ^ 63 then some i else none
  | .float => none

/-- `Map::get` on an object's entry list (first match; keys are unique in
documents produced by `serde_json`). -/
def map_get (key : String) : List (String × Json) → Option Json
  | [] => none
  | (k, v) :: t => if k = key then some v else map_get key t

/-- `Value::get(key)`: field lookup, `None` on non-objects. -/
def jget (v : Json) (key : String) : Option Json :=
  match v with
  | .obj m => map_get key m
  | _ => none

/-- `Value::as_u64` (used on the `total_playtime_seconds` field). -/
def value_as_u64 : Json → Option Nat
  | .num n => as_u64 n
  | _ => none

/- ### Calendar arithmetic (chrono `DateTime::from_timestamp` + `%Y-%m`) -/

/-- Days from the civil date `(y, m, d)` to 1970-01-01 (proleptic Gregorian
calendar; Howard Hinnant's algorithm, the semantics of chrono's
`NaiveDate`). -/
def days_from_civil (y : Int) (m d : Nat) : Int :=
  let y' : Int := if m ≤ 2 then y - 1 else y
  let era : Int := Int.fdiv y' 400
  let yoe : Nat := (y' - era * 400).toNat
  let mp : Nat := if 2 < m then m - 3 else m + 9
  let doy : Nat := (153 * mp + 2) / 5 + d - 1
  let doe : Nat := yoe * 365 + yoe / 4 - yoe / 100 + doy
  era * 146097 + (doe : Int) - 719468

/-- Civil date `(year, month, day)` of the day `z` days after 1970-01-01
(proleptic Gregorian; inverse of `days_from_civil`). -/
def civil_from_days (z : Int) : Int × Nat × Nat :=
  let z' : Int := z + 719468
  let era : Int := Int.fdiv z' 146097
  let doe : Nat := (z' - era * 146097).toNat
  let yoe : Nat := (doe - doe / 1460 + doe / 36524 - doe / 146096) / 365
  let y : Int := (yoe : Int) + era * 400
  let doy : Nat := doe - (365 * yoe + yoe / 4 - yoe / 100)
  let mp : Nat := (5 * doy + 2) / 153
  let d : Nat := doy - (153 * mp + 2) / 5 + 1
  let m : Nat := if mp < 10 then mp + 3 else mp - 9
  (if m ≤ 2 then y + 1 else y, m, d)

/-- chrono `NaiveDate::MIN` is `-262144-01-01`; the smallest accepted Unix
timestamp is midnight of that day. -/
def MIN_TS : Int := days_from_civil (-262144) 1 1 * 86400

/-- chrono `NaiveDate::MAX` is `262143-12-31`; the largest accepted Unix
timestamp is the last second of that day. -/
def MAX_TS : Int := days_from_civil 262143 12 31 * 86400 + 86399

/-- chrono `DateTime::from_timestamp(ts, 0)`: `Some` exactly when the
timestamp falls inside chrono's representable date range. -/
def from_timestamp (ts : Int) : Option Int :=
  if MIN_TS ≤ ts ∧ ts ≤ MAX_TS then some ts else none

/-- Left-pad the decimal rendering of `n` with zeros to at least 4 digits
(chrono's `%Y` digit field). -/
def pad4 (n : Nat) : String :=
  let s := toString n
  if s.length < 4 then String.mk (List.replicate (4 - s.length) '0') ++ s else s

/-- chrono's `%Y`: the year zero-padded to 4 digits, with an explicit sign
for years outside `0..=9999`. -/
def year_string (y : Int) : String :=
  if 0 ≤ y ∧ y < 10000 then pad4 y.toNat
  else if y < 0 then "-" ++ pad4 (-y).toNat
  else "+" ++ pad4 y.toNat

/-- chrono's `%m`: the month zero-padded to 2 digits. -/
def pad2 (m : Nat) : String :=
  if m < 10 then "0" ++ toString m else toString m

/-- The `%Y-%m` rendering of the instant `t` seconds after the Unix epoch. -/
def render_year_month (t : Int) : String :=
  let c := civil_from_days (Int.fdiv t 86400)
  year_string c.1 ++ "-" ++ pad2 c.2.1

/-- `format_month_from_timestamp` (main.rs 423-428): format the timestamp as
`%Y-%m`, falling back to the Unix epoch when chrono rejects it. -/
def format_month_from_timestamp (timestamp : Int) : String :=
  render_year_month ((from_timestamp timestamp).getD 0)

/- ### Section-to-month translation -/

/-- The fixed 12-entry month table with index fallback,
`get_month_name` (main.rs 447-458). -/
def get_month_name (month_index : Nat) : String :=
  let months := ["January", "February", "March", "April", "May", "June",
    "July", "August", "September", "October", "November", "December"]
  if h : month_index < 12 then months.get ⟨month_index, h⟩
  else "month_" ++ toString month_index

/-- Rust `str::starts_with` on the character sequence (all prefixes used in
the program are ASCII, so character and byte positions agree). -/
def str_starts_with (s pre : String) : Bool :=
  pre.data.isPrefixOf s.data

/-- Drop the first `n` characters of a string. -/
def str_drop (s : String) (n : Nat) : String :=
  String.mk (s.data.drop n)

/-- Rust `usize::from_str` (64-bit target): an optional leading `+`, then
one or more ASCII digits, rejecting overflow past `u64::MAX`. -/
def parse_usize (s : String) : Option Nat :=
  let t := match s.data with
    | '+' :: rest => rest
    | cs => cs
  if t.isEmpty then none
  else if t.all Char.isDigit then
    let n := t.foldl (fun acc c => acc * 10 + (c.toNat - 48)) 0
    if n < 2 ^ 64 then some n else none
  else none

/-- `section.strip_prefix("playtime_stats.months.month_")` (that literal is
28 characters long). -/
def strip_month_pre (s : String) : Option String :=
  if str_starts_with s "playtime_stats.months.month_" then some (str_drop s 28)
  else none

/-- `convert_section_to_month` (main.rs 430-445): the aggregate section maps
to "total", a parseable month index maps through the month table, and
everything else passes through unchanged. -/
def convert_section_to_month (s : String) : String :=
  if s = "playtime_stats.games" then "total"
  else
    match strip_month_pre s with
    | some month_part =>
      match parse_usize month_part with
      | some month_num => get_month_name month_num
      | none => s
    | none => s

/- ### Record extractor -/

/-- One extracted tuple `(app_id, playtime_seconds, section)`. -/
abbrev PRec := String × Nat × String

/-- The `app_id` extraction of main.rs 356-362: a number goes through
`as_u64` and decimal rendering, a string is taken verbatim, anything else
(including a non-`u64` number) yields `None`. -/
def app_id_of (m : List (String × Json)) : Option String :=
  match map_get "appid" m with
  | some (.num n) => (as_u64 n).map (fun k => toString k)
  | some (.str s) => some s
  | _ => none

/-- The playtime extraction of main.rs 364-368:
`map.get("relative_game_stats").and_then(|s| s.get("total_playtime_seconds")).and_then(as_u64)`. -/
def playtime_of (m : List (String × Json)) : Option Nat :=
  (map_get "relative_game_stats" m).bind
    (fun stats => (jget stats "total_playtime_seconds").bind value_as_u64)

/-- `path.join(".")`, or the literal "unknown" on an empty path
(main.rs 373-377). -/
def section_of (path : List String) : String :=
  if path = [] then "unknown" else String.intercalate "." path

/-- The node-level emission of main.rs 350-381: a record is pushed iff the
object has both keys, the app id resolves, the playtime resolves, and the
playtime is strictly positive. -/
def tryRecord (m : List (String × Json)) (path : List String) : Option PRec :=
  if (map_get "appid" m).isSome && (map_get "relative_game_stats" m).isSome then
    match app_id_of m, playtime_of m with
    | some app_id, some playtime =>
      if 0 < playtime then some (app_id, playtime, section_of path) else none
    | _, _ => none
  else none

/-- Replace the last element of a list (Rust `last_mut`; no-op on `[]`). -/
def replace_last : List String → String → List String
  | [], _ => []
  | [_], s => [s]
  | x :: t, s => x :: replace_last t s

/-- The per-key path update of main.rs 384-402: the three allow-listed
wrapper keys append themselves; the `rtime_month` key — when the last path
segment is a `month_` placeholder and the field is an `i64` number —
replaces that last segment with the `%Y-%m` rendering of the timestamp;
every other key leaves the path unchanged. -/
def child_path (m : List (String × Json)) (path : List String) (key : String) :
    List String :=
  if key = "games" ∨ key = "months" ∨ key = "playtime_stats" then
    path ++ [key]
  else if key = "rtime_month" ∧
      ((path.getLast?.map (fun s => str_starts_with s "month_")).getD false) = true then
    match map_get "rtime_month" m with
    | some (.num n) =>
      match as_i64 n with
      | some ts => replace_last path (format_month_from_timestamp ts)
      | none => path
    | _ => path
  else path

mutual
/-- `extract_playtime_recursive` (main.rs 347-421). -/
def extract_playtime_go : Json → List String → List PRec
  | .obj m, path => (tryRecord m path).toList ++ extract_playtime_entries m m path
  | .arr l, path => extract_playtime_elems l 0 path
  | _, _ => []

/-- The object loop of main.rs 384-404: visit each value under the path
computed by `child_path` (the whole map `full` is needed for the
`rtime_month` probe). -/
def extract_playtime_entries :
    List (String × Json) → List (String × Json) → List String → List PRec
  | [], _, _ => []
  | (key, v) :: t, full, path =>
    extract_playtime_go v (child_path full path key) ++
      extract_playtime_entries t full path

/-- The array loop of main.rs 407-418: under a path ending in "months" each
element appends its `month_<index>` placeholder, otherwise the path is
unchanged. -/
def extract_playtime_elems : List Json → Nat → List String → List PRec
  | [], _, _ => []
  | v :: t, index, path =>
    (if path.getLast? = some "months" then
      extract_playtime_go v (path ++ ["month_" ++ toString index])
    else
      extract_playtime_go v path) ++ extract_playtime_elems t (index + 1) path
end

/-- `extract_playtime_data` (main.rs 341-345). -/
def extract_playtime_data (v : Json) : List PRec :=
  extract_playtime_go v []

/- ### The extractor with the month-overwrite rule removed

The following variant is the comparison point for the (corrected) claim that
the `rtime_month` overwrite never influences any emitted record: it is the
extractor with the `rtime_month` branch of the path update deleted (it never
reads `rtime_month` or a timestamp at all), and the theorem
`month_overwrite_dead_code` below proves it emits exactly the same records
as the real extractor on every well-formed document. -/

/-- The per-key path update without the `rtime_month` overwrite branch: only
the three allow-listed wrapper keys extend the path. -/
def child_path_plain (path : List String) (key : String) : List String :=
  if key = "games" ∨ key = "months" ∨ key = "playtime_stats" then
    path ++ [key]
  else path

mutual
/-- `extract_playtime_recursive` with the overwrite rule removed. -/
def extract_playtime_go_plain : Json → List String → List PRec
  | .obj m, path =>
    (tryRecord m path).toList ++ extract_playtime_entries_plain m path
  | .arr l, path => extract_playtime_elems_plain l 0 path
  | _, _ => []

/-- The object loop with the overwrite rule removed. -/
def extract_playtime_entries_plain :
    List (String × Json) → List String → List PRec
  | [], _ => []
  | (key, v) :: t, path =>
    extract_playtime_go_plain v (child_path_plain path key) ++
      extract_playtime_entries_plain t path

/-- The array loop (identical to the real one up to the recursive calls). -/
def extract_playtime_elems_plain : List Json → Nat → List String → List PRec
  | [], _, _ => []
  | v :: t, index, path =>
    (if path.getLast? = some "months" then
      extract_playtime_go_plain v (path ++ ["month_" ++ toString index])
    else
      extract_playtime_go_plain v path) ++
      extract_playtime_elems_plain t (index + 1) path
end

/-- The most-significant-first decimal digit list of a natural number (the
rendering produced by `Nat.repr`). -/
def digitsRec (n : Nat) : List Char :=
  if n < 10 then [Nat.digitChar n]
  else digitsRec (n / 10) ++ [Nat.digitChar (n % 10)]
decreasing_by exact Nat.div_lt_self (by omega) (by omega)

/- ### App-id collector -/

/-- The node-level id harvest of main.rs 269-280: the `appid` and `app_id`
fields, when numbers representable as `u64`, are inserted in decimal form. -/
def node_app_ids (m : List (String × Json)) : Finset String :=
  (match map_get "appid" m with
   | some (.num n) =>
     match as_u64 n with
     | some id => {toString id}
     | none => (∅ : Finset String)
   | _ => (∅ : Finset String)) ∪
  (match map_get "app_id" m with
   | some (.num n) =>
     match as_u64 n with
     | some id => {toString id}
     | none => (∅ : Finset String)
   | _ => (∅ : Finset String))

mutual
/-- `extract_app_ids_recursive` (main.rs 266-293); the mutable `HashSet`
accumulator becomes a returned `Finset`. -/
def extract_app_ids_go : Json → Finset String
  | .obj m => node_app_ids m ∪ extract_app_ids_entries m
  | .arr l => extract_app_ids_elems l
  | _ => ∅

/-- Recursion over an object's values (main.rs 282-284). -/
def extract_app_ids_entries : List (String × Json) → Finset String
  | [] => ∅
  | (_, v) :: t => extract_app_ids_go v ∪ extract_app_ids_entries t

/-- Recursion over an array's elements (main.rs 286-290). -/
def extract_app_ids_elems : List Json → Finset String
  | [] => ∅
  | v :: t => extract_app_ids_go v ∪ extract_app_ids_elems t
end

/-- `extract_app_ids` (main.rs 260-264). -/
def extract_app_ids (v : Json) : Finset String :=
  extract_app_ids_go v

/- ### The to-csv emitter (convert_to_csv, main.rs 209-258) -/

/-- One collected row `(app_id, playtime_seconds, year, section)` of
main.rs 212 (the source `section` field is renamed: `section` is a Lean
keyword). -/
structure CsvRow where
  app_id : String
  playtime_seconds : Nat
  year : String
  sect : String
deriving DecidableEq

/-- Lexicographic comparison of character sequences by code point. -/
def chars_cmp : List Char → List Char → Ordering
  | [], [] => .eq
  | [], _ :: _ => .lt
  | _ :: _, [] => .gt
  | a :: as, b :: bs =>
    if a.toNat < b.toNat then .lt
    else if b.toNat < a.toNat then .gt
    else chars_cmp as bs

/-- Rust `str::cmp`: lexicographic byte comparison; on UTF-8 data the byte
order coincides with the code-point order compared here. -/
def str_cmp (a b : String) : Ordering :=
  chars_cmp a.data b.data

/-- The comparator of main.rs 240-243:
`a.2.cmp(&b.2).then(a.0.cmp(&b.0)).then(a.3.cmp(&b.3))`, i.e. year, then
app id, then raw (untranslated) section. -/
def row_cmp (a b : CsvRow) : Ordering :=
  ((str_cmp a.year b.year).then (str_cmp a.app_id b.app_id)).then
    (str_cmp a.sect b.sect)

/-- The non-strict order induced by `row_cmp`. -/
def RowLe (a b : CsvRow) : Prop := row_cmp a b ≠ .gt

instance : DecidableRel RowLe := fun a b =>
  inferInstanceAs (Decidable (row_cmp a b ≠ .gt))

/-- `Vec::sort_by` with `row_cmp` (main.rs 240): a stable sort; insertion
sort is stable, and the output of a stable sort is uniquely determined by
the comparator and the input order. -/
def sort_rows (rows : List CsvRow) : List CsvRow :=
  rows.insertionSort RowLe

/-- One output line of main.rs 245-249: the section is translated after
sorting, and the four fields are joined by commas with no escaping. -/
def csv_line (r : CsvRow) : String :=
  r.app_id ++ "," ++ toString r.playtime_seconds ++ "," ++ r.year ++ "," ++
    convert_section_to_month r.sect ++ "\n"

/-- The body lines of the to-csv output, in final order. -/
def csv_body (rows : List CsvRow) : List String :=
  (sort_rows rows).map csv_line

/-- The full to-csv output: fixed header plus body (main.rs 238-250). -/
def csv_content (rows : List CsvRow) : String :=
  String.join ("app_id,playtime_in_seconds,year,month\n" :: csv_body rows)

/- ### The game-mapping emitter (map_games_master, main.rs 183-198) -/

/-- Rust `s.replace('"', "\"\"")` on the character sequence. -/
def double_quotes : List Char → List Char
  | [] => []
  | c :: t => if c = '"' then '"' :: '"' :: double_quotes t else c :: double_quotes t

/-- The escaping of main.rs 192-196: a name containing a comma or a quote is
wrapped in quotes with internal quotes doubled; other names pass through. -/
def escape_name (game_name : String) : String :=
  if game_name.data.any (fun c => c == ',') || game_name.data.any (fun c => c == '"') then
    "\"" ++ String.mk (double_quotes game_name.data) ++ "\""
  else game_name

/-- One line of the mapping CSV (main.rs 197): the id field is written
verbatim, only the name field goes through `escape_name`. -/
def mapping_line (app_id game_name : String) : String :=
  app_id ++ "," ++ escape_name game_name ++ "\n"

/-- The order on mapping entries: `sort_by_key(|&(id, _)| id)`
(main.rs 188). -/
def EntryLe (a b : String × String) : Prop := str_cmp a.1 b.1 ≠ .gt

instance : DecidableRel EntryLe := fun a b =>
  inferInstanceAs (Decidable (str_cmp a.1 b.1 ≠ .gt))

/-- The body lines of the mapping CSV: entries sorted stably by id, then
rendered (main.rs 187-198). -/
def mapping_body (entries : List (String × String)) : List String :=
  (entries.insertionSort EntryLe).map (fun p => mapping_line p.1 p.2)

/- ### Helper lemmas -/

/-- `app_id_of m` succeeding forces the `appid` key to be present. -/
theorem isSome_appid_of_app_id_of {m : List (String × Json)} {id : String}
    (h : app_id_of m = some id) : (map_get "appid" m).isSome = true := by
  unfold app_id_of at h
  cases hm : map_get "appid" m with
  | none => rw [hm] at h; exact Option.noConfusion h
  | some v => rfl

/-- `playtime_of m` succeeding forces the stats key to be present. -/
theorem isSome_stats_of_playtime_of {m : List (String × Json)} {pt : Nat}
    (h : playtime_of m = some pt) :
    (map_get "relative_game_stats" m).isSome = true := by
  unfold playtime_of at h
  cases hm : map_get "relative_game_stats" m with
  | none => rw [hm] at h; exact Option.noConfusion h
  | some v => rfl

/-- The node-level emission under resolved fields. -/
theorem tryRecord_eq_of_resolved {m : List (String × Json)}
    {id : String} {pt : Nat} (path : List String)
    (hid : app_id_of m = some id) (hpt : playtime_of m = some pt) :
    tryRecord m path =
      if 0 < pt then some (id, pt, section_of path) else none := by
  unfold tryRecord
  rw [isSome_appid_of_app_id_of hid, isSome_stats_of_playtime_of hpt]
  simp [hid, hpt]

/-- The node-level emission is empty whenever a probe fails. -/
theorem tryRecord_eq_none {m : List (String × Json)} (path : List String)
    (h : app_id_of m = none ∨ playtime_of m = none) :
    tryRecord m path = none := by
  unfold tryRecord
  by_cases hb :
      ((map_get "appid" m).isSome && (map_get "relative_game_stats" m).isSome) = true
  · rw [if_pos hb]
    rcases h with h | h
    · rw [h]
    · rw [h]; cases app_id_of m <;> rfl
  · rw [if_neg hb]


/- ### Claim theorems -/

/-- Claim C3: the document
`{"a":{"appid":42,"relative_game_stats":{"total_playtime_seconds":7500}}}`
yields exactly one record with identifier "42", measurement 7500 and
section "unknown" (the wrapper key "a" is not allow-listed, so the path is
empty at match time), and translating "unknown" returns it unchanged. -/
theorem concrete_scenario_unknown_section :
    extract_playtime_data
      (.obj [("a", .obj [("appid", .num (.int 42)),
        ("relative_game_stats",
          .obj [("total_playtime_seconds", .num (.int 7500))])])]) =
      [("42", 7500, "unknown")] ∧
    convert_section_to_month "unknown" = "unknown" := by decide

/-- Claim C9: the collector only accepts numeric identifier values while the
extractor also accepts strings, so a document whose only identifier is the
string "42" beside a stats container with positive measurement produces a
non-empty record list whose identifier is absent from the collected id
set. -/
theorem string_appid_asymmetry :
    extract_playtime_data
      (.obj [("appid", .str "42"),
        ("relative_game_stats",
          .obj [("total_playtime_seconds", .num (.int 5))])]) =
      [("42", 5, "unknown")] ∧
    extract_app_ids
      (.obj [("appid", .str "42"),
        ("relative_game_stats",
          .obj [("total_playtime_seconds", .num (.int 5))])]) = ∅ ∧
    "42" ∉ extract_app_ids
      (.obj [("appid", .str "42"),
        ("relative_game_stats",
          .obj [("total_playtime_seconds", .num (.int 5))])]) := by decide

/-- Claim C4: the translator maps the aggregate section to "total", the
index-0 month section to "January", the out-of-range index 99 to the
fallback "month_99" (which contains "99") instead of failing, and returns
every section matching neither shape unchanged. -/
theorem translator_round_trip :
    convert_section_to_month "playtime_stats.games" = "total" ∧
    convert_section_to_month "playtime_stats.months.month_0" = "January" ∧
    convert_section_to_month "playtime_stats.months.month_99" =
      "month_" ++ toString 99 ∧
    ∀ s : String, s ≠ "playtime_stats.games" →
      (strip_month_pre s).bind parse_usize = none →
      convert_section_to_month s = s := by
  refine ⟨by decide, by decide, by decide, ?_⟩
  intro s h1 h2
  unfold convert_section_to_month
  rw [if_neg h1]
  cases hsp : strip_month_pre s with
  | none => rfl
  | some rest =>
    rw [hsp] at h2
    have h2' : parse_usize rest = none := h2
    simp [h2']

/-- Witness for C4: the pass-through case applied to a concrete
unrecognised section string. -/
theorem translator_round_trip_witness :
    convert_section_to_month "hello" = "hello" :=
  translator_round_trip.2.2.2 "hello" (by decide) (by decide)

/-- Claim C1 counterexample: a months-array record whose `rtime_month`
timestamp lies in March 2024 but whose array index is 0 is emitted with the
index placeholder section `playtime_stats.months.month_0`, whose
translation is "January", not the "March" named by the timestamp: the
`%Y-%m` overwrite only affects the path passed into the `rtime_month`
field's own recursive call, which emits nothing. -/
theorem month_overwrite_counterexample :
    extract_playtime_data
      (.obj [("playtime_stats", .obj [("months", .arr
        [.obj [("appid", .num (.int 1)),
               ("relative_game_stats",
                 .obj [("total_playtime_seconds", .num (.int 5))]),
               ("rtime_month", .num (.int 1709300000))]])])]) =
      [("1", 5, "playtime_stats.months.month_0")] ∧
    format_month_from_timestamp 1709300000 = "2024-03" ∧
    convert_section_to_month "playtime_stats.months.month_0" = "January" ∧
    convert_section_to_month "playtime_stats.months.month_0" ≠ "March" := by
  decide

/-- Claim C2 counterexample: the to-csv emitter applies no field escaping —
a row whose identifier field contains a comma is rendered verbatim, without
the quoting the claim requires (the output contains no quote character at
all, while the required escaping of that field would). -/
theorem csv_unescaped_counterexample :
    csv_content [⟨"a,b", 1, "2024", "s"⟩] =
      "app_id,playtime_in_seconds,year,month\na,b,1,2024,s\n" ∧
    escape_name "a,b" = "\"a,b\"" ∧
    (csv_content [⟨"a,b", 1, "2024", "s"⟩]).data.any (fun c => c == '"') =
      false := by decide

/-- Claim C2 (amended): no row is ever dropped by either rendering stage,
and escaping is applied only to the game-name field of the mapping CSV —
there a name containing a comma or quote is wrapped in quotes with internal
quotes doubled and any other name passes through — while the to-csv emitter
joins its four fields with no escaping at all. -/
theorem csv_render_amended :
    (∀ rows : List CsvRow, (csv_body rows).length = rows.length) ∧
    (∀ entries : List (String × String),
      (mapping_body entries).length = entries.length) ∧
    (∀ name : String,
      (name.data.any (fun c => c == ',') || name.data.any (fun c => c == '"')) =
        true →
      escape_name name = "\"" ++ String.mk (double_quotes name.data) ++ "\"") ∧
    (∀ name : String,
      (name.data.any (fun c => c == ',') || name.data.any (fun c => c == '"')) =
        false →
      escape_name name = name) ∧
    (∀ r : CsvRow, csv_line r =
      r.app_id ++ "," ++ toString r.playtime_seconds ++ "," ++ r.year ++ "," ++
        convert_section_to_month r.sect ++ "\n") := by
  refine ⟨?_, ?_, ?_, ?_, fun r => rfl⟩
  · intro rows
    unfold csv_body sort_rows
    rw [List.length_map, List.length_insertionSort]
  · intro entries
    unfold mapping_body
    rw [List.length_map, List.length_insertionSort]
  · intro name h
    unfold escape_name
    rw [if_pos h]
  · intro name h
    unfold escape_name
    rw [if_neg (by rw [h]; exact Bool.false_ne_true)]

/-- Witness for C2 (amended): the escaping and pass-through cases and the
length preservation, applied at concrete inputs. -/
theorem csv_render_amended_witness :
    (csv_body [⟨"10", 3, "2024", "playtime_stats.games"⟩]).length = 1 ∧
    (mapping_body [("10", "Team Fortress 2")]).length = 1 ∧
    escape_name "Warhammer 40,000" = "\"Warhammer 40,000\"" ∧
    escape_name "Portal" = "Portal" :=
  ⟨csv_render_amended.1 _, csv_render_amended.2.1 _,
    (csv_render_amended.2.2.1 "Warhammer 40,000" (by decide)).trans (by decide),
    csv_render_amended.2.2.2.1 "Portal" (by decide)⟩

/-- Claim C6 counterexample: an object carrying a numeric identifier field
that is not `u64`-representable (here `-1`) and a stats container whose
measurement resolves to 1 emits no record at all, although the claim
demands exactly one. -/
theorem record_unresolved_id_counterexample :
    (map_get "appid"
      [("appid", .num (.int (-1))),
       ("relative_game_stats",
         .obj [("total_playtime_seconds", .num (.int 1))])]).isSome = true ∧
    playtime_of
      [("appid", .num (.int (-1))),
       ("relative_game_stats",
         .obj [("total_playtime_seconds", .num (.int 1))])] = some 1 ∧
    extract_playtime_data
      (.obj [("appid", .num (.int (-1))),
        ("relative_game_stats",
          .obj [("total_playtime_seconds", .num (.int 1))])]) = [] := by decide

/-- Claim C6 (amended): for an object node whose identifier field resolves
(a `u64`-representable number or a string) and whose measurement field
resolves, the node emits exactly one record — carrying the resolved
measurement — iff the measurement is strictly positive, and no record when
it is zero; the children are traversed either way. -/
theorem record_iff_positive (m : List (String × Json)) (path : List String)
    (id : String) (pt : Nat)
    (hid : app_id_of m = some id) (hpt : playtime_of m = some pt) :
    extract_playtime_go (.obj m) path =
      (if 0 < pt then [(id, pt, section_of path)] else []) ++
        extract_playtime_entries m m path := by
  show (tryRecord m path).toList ++ _ = _
  rw [tryRecord_eq_of_resolved path hid hpt]
  by_cases h : 0 < pt
  · rw [if_pos h, if_pos h]; rfl
  · rw [if_neg h, if_neg h]; rfl

/-- Witness for C6 (amended): a zero measurement emits nothing and a
measurement of 1 emits exactly one record. -/
theorem record_iff_positive_witness :
    extract_playtime_go
      (.obj [("appid", .num (.int 7)),
        ("relative_game_stats",
          .obj [("total_playtime_seconds", .num (.int 0))])]) [] =
      extract_playtime_entries
        [("appid", .num (.int 7)),
         ("relative_game_stats",
           .obj [("total_playtime_seconds", .num (.int 0))])]
        [("appid", .num (.int 7)),
         ("relative_game_stats",
           .obj [("total_playtime_seconds", .num (.int 0))])] [] ∧
    extract_playtime_go
      (.obj [("appid", .num (.int 7)),
        ("relative_game_stats",
          .obj [("total_playtime_seconds", .num (.int 1))])]) [] =
      ("7", 1, "unknown") ::
        extract_playtime_entries
          [("appid", .num (.int 7)),
           ("relative_game_stats",
             .obj [("total_playtime_seconds", .num (.int 1))])]
          [("appid", .num (.int 7)),
           ("relative_game_stats",
             .obj [("total_playtime_seconds", .num (.int 1))])] [] :=
  ⟨record_iff_positive _ [] "7" 0 (by decide) (by decide),
    record_iff_positive _ [] "7" 1 (by decide) (by decide)⟩

/-- Claim C8: both traversals are total functions of the document — scalar
nodes produce no output, and an object node whose probes fail (missing
field, malformed type, non-`u64` number) emits nothing itself while its
children are still traversed; no shape ever produces an error. -/
theorem extractors_guarded_total :
    (∀ path, extract_playtime_go .null path = [] ∧
      (∀ b, extract_playtime_go (.bool b) path = []) ∧
      (∀ n, extract_playtime_go (.num n) path = []) ∧
      (∀ s, extract_playtime_go (.str s) path = [])) ∧
    (∀ m path, app_id_of m = none ∨ playtime_of m = none →
      extract_playtime_go (.obj m) path = extract_playtime_entries m m path) ∧
    (extract_app_ids_go .null = ∅ ∧
      (∀ b, extract_app_ids_go (.bool b) = ∅) ∧
      (∀ n, extract_app_ids_go (.num n) = ∅) ∧
      (∀ s, extract_app_ids_go (.str s) = ∅)) ∧
    (∀ m, (∀ n, map_get "appid" m = some (.num n) → as_u64 n = none) →
      (∀ n, map_get "app_id" m = some (.num n) → as_u64 n = none) →
      extract_app_ids_go (.obj m) = extract_app_ids_entries m) := by
  refine ⟨fun path => ⟨rfl, fun b => rfl, fun n => rfl, fun s => rfl⟩,
    ?_, ⟨rfl, fun b => rfl, fun n => rfl, fun s => rfl⟩, ?_⟩
  · intro m path h
    show (tryRecord m path).toList ++ _ = _
    rw [tryRecord_eq_none path h]
    rfl
  · intro m h1 h2
    show node_app_ids m ∪ extract_app_ids_entries m = extract_app_ids_entries m
    have hn : node_app_ids m = ∅ := by
      unfold node_app_ids
      have e1 :
          (match map_get "appid" m with
           | some (.num n) =>
             match as_u64 n with
             | some id => {toString id}
             | none => (∅ : Finset String)
           | _ => (∅ : Finset String)) = (∅ : Finset String) := by
        cases hv : map_get "appid" m with
        | none => rfl
        | some v =>
          cases v with
          | num n => simp [h1 n hv]
          | null => rfl
          | bool b => rfl
          | str s => rfl
          | arr l => rfl
          | obj o => rfl
      have e2 :
          (match map_get "app_id" m with
           | some (.num n) =>
             match as_u64 n with
             | some id => {toString id}
             | none => (∅ : Finset String)
           | _ => (∅ : Finset String)) = (∅ : Finset String) := by
        cases hv : map_get "app_id" m with
        | none => rfl
        | some v =>
          cases v with
          | num n => simp [h2 n hv]
          | null => rfl
          | bool b => rfl
          | str s => rfl
          | arr l => rfl
          | obj o => rfl
      rw [e1, e2]
      exact Finset.union_idempotent ∅
    rw [hn, Finset.empty_union]

/-- Witness for C8: the guarded cases applied to a concrete malformed
object (a stats container without an identifier, and an identifier field
holding a boolean). -/
theorem extractors_guarded_total_witness :
    extract_playtime_go (.obj [("appid", .bool true)]) [] =
      extract_playtime_entries [("appid", .bool true)]
        [("appid", .bool true)] [] ∧
    extract_app_ids_go (.obj [("x", .null)]) =
      extract_app_ids_entries [("x", .null)] :=
  ⟨extractors_guarded_total.2.1 [("appid", .bool true)] []
      (Or.inr rfl),
    extractors_guarded_total.2.2.2 [("x", .null)]
      (fun _ h => Option.noConfusion h) (fun _ h => Option.noConfusion h)⟩

/-- Claim C10: `format_month_from_timestamp` is total — every timestamp
inside chrono's representable range is rendered as its own `%Y-%m` string,
and every timestamp outside it falls back to the epoch rendering
"1970-01". -/
theorem format_month_total (ts : Int) :
    (MIN_TS ≤ ts ∧ ts ≤ MAX_TS →
      format_month_from_timestamp ts = render_year_month ts) ∧
    (¬(MIN_TS ≤ ts ∧ ts ≤ MAX_TS) →
      format_month_from_timestamp ts = "1970-01") := by
  constructor
  · intro h
    unfold format_month_from_timestamp from_timestamp
    rw [if_pos h]
    rfl
  · intro h
    unfold format_month_from_timestamp from_timestamp
    rw [if_neg h]
    decide

/-- Witness for C10: an in-range timestamp (13 February 2009) renders as its
own month, and a far out-of-range timestamp falls back to "1970-01". -/
theorem format_month_total_witness :
    format_month_from_timestamp 1234567890 = "2009-02" ∧
    format_month_from_timestamp (2 ^ 63) = "1970-01" :=
  ⟨((format_month_total 1234567890).1 (by decide)).trans (by decide),
    (format_month_total (2 ^ 63)).2 (by decide)⟩

/- ### Comparator laws for the to-csv sort -/

/-- Characters with equal code points are equal. -/
theorem char_toNat_inj {a b : Char} (h : a.toNat = b.toNat) : a = b :=
  Char.ext (UInt32.toNat.inj h)

/-- `chars_cmp` is antisymmetric under argument swap. -/
theorem chars_cmp_swap (as : List Char) :
    ∀ bs, chars_cmp bs as = (chars_cmp as bs).swap := by
  induction as with
  | nil => intro bs; cases bs <;> rfl
  | cons a as ih =>
    intro bs
    cases bs with
    | nil => rfl
    | cons b bs =>
      show chars_cmp (b :: bs) (a :: as) = (chars_cmp (a :: as) (b :: bs)).swap
      unfold chars_cmp
      rcases Nat.lt_trichotomy a.toNat b.toNat with h | h | h
      · rw [if_neg (Nat.lt_asymm h), if_pos h, if_pos h]; rfl
      · simp only [h, Nat.lt_irrefl, if_false]
        exact ih bs
      · rw [if_pos h, if_neg (Nat.lt_asymm h), if_pos h]; rfl

/-- `chars_cmp` returns `eq` only on equal lists. -/
theorem chars_cmp_eq (as : List Char) :
    ∀ bs, chars_cmp as bs = .eq → as = bs := by
  induction as with
  | nil =>
    intro bs h
    cases bs with
    | nil => rfl
    | cons b bs => exact Ordering.noConfusion h
  | cons a as ih =>
    intro bs h
    cases bs with
    | nil => exact Ordering.noConfusion h
    | cons b bs =>
      unfold chars_cmp at h
      by_cases hab : a.toNat < b.toNat
      · rw [if_pos hab] at h; exact Ordering.noConfusion h
      · rw [if_neg hab] at h
        by_cases hba : b.toNat < a.toNat
        · rw [if_pos hba] at h; exact Ordering.noConfusion h
        · rw [if_neg hba] at h
          rw [char_toNat_inj (Nat.le_antisymm (Nat.le_of_not_lt hba)
            (Nat.le_of_not_lt hab)), ih bs h]

/-- `chars_cmp` compares a list with itself as `eq`. -/
theorem chars_cmp_self : ∀ as : List Char, chars_cmp as as = .eq
  | [] => rfl
  | a :: as => by
    unfold chars_cmp
    rw [if_neg (Nat.lt_irrefl _), if_neg (Nat.lt_irrefl _)]
    exact chars_cmp_self as

/-- Strict `chars_cmp` order is transitive. -/
theorem chars_cmp_lt_trans (as : List Char) :
    ∀ bs cs, chars_cmp as bs = .lt → chars_cmp bs cs = .lt →
      chars_cmp as cs = .lt := by
  induction as with
  | nil =>
    intro bs cs h1 h2
    cases bs with
    | nil => exact Ordering.noConfusion h1
    | cons b bs =>
      cases cs with
      | nil => exact Ordering.noConfusion h2
      | cons c cs => rfl
  | cons a as ih =>
    intro bs cs h1 h2
    cases bs with
    | nil => exact Ordering.noConfusion h1
    | cons b bs =>
      cases cs with
      | nil => exact Ordering.noConfusion h2
      | cons c cs =>
        unfold chars_cmp at h1 h2 ⊢
        by_cases hab : a.toNat < b.toNat
        · by_cases hbc : b.toNat < c.toNat
          · rw [if_pos (Nat.lt_trans hab hbc)]
          · rw [if_neg hbc] at h2
            by_cases hcb : c.toNat < b.toNat
            · rw [if_pos hcb] at h2; exact Ordering.noConfusion h2
            · rw [if_pos (show a.toNat < c.toNat by omega)]
        · rw [if_neg hab] at h1
          by_cases hba : b.toNat < a.toNat
          · rw [if_pos hba] at h1; exact Ordering.noConfusion h1
          · rw [if_neg hba] at h1
            by_cases hbc : b.toNat < c.toNat
            · rw [if_pos (show a.toNat < c.toNat by omega)]
            · rw [if_neg hbc] at h2
              by_cases hcb : c.toNat < b.toNat
              · rw [if_pos hcb] at h2; exact Ordering.noConfusion h2
              · rw [if_neg hcb] at h2
                rw [if_neg (show ¬a.toNat < c.toNat by omega),
                  if_neg (show ¬c.toNat < a.toNat by omega)]
                exact ih bs cs h1 h2

/-- `str_cmp` swap law. -/
theorem str_cmp_swap (a b : String) : str_cmp b a = (str_cmp a b).swap :=
  chars_cmp_swap a.data b.data

/-- `str_cmp` separates points. -/
theorem str_cmp_eq {a b : String} (h : str_cmp a b = .eq) : a = b := by
  cases a with
  | mk da =>
    cases b with
    | mk db => rw [chars_cmp_eq da db h]

/-- `str_cmp` is reflexively `eq`. -/
theorem str_cmp_self (a : String) : str_cmp a a = .eq :=
  chars_cmp_self a.data

/-- Strict `str_cmp` order is transitive. -/
theorem str_cmp_lt_trans {a b c : String} (h1 : str_cmp a b = .lt)
    (h2 : str_cmp b c = .lt) : str_cmp a c = .lt :=
  chars_cmp_lt_trans a.data b.data c.data h1 h2

/-- Lexicographic composition produces `lt` iff the first comparison is `lt`
or resolves equal and the second is `lt`. -/
theorem then_eq_lt {o p : Ordering} :
    o.then p = .lt ↔ o = .lt ∨ (o = .eq ∧ p = .lt) := by
  cases o <;> simp [Ordering.then]

/-- Lexicographic composition produces `eq` iff both comparisons do. -/
theorem then_eq_eq {o p : Ordering} :
    o.then p = .eq ↔ o = .eq ∧ p = .eq := by
  cases o <;> simp [Ordering.then]

/-- `swap` distributes over lexicographic composition. -/
theorem then_swap (o p : Ordering) : (o.then p).swap = o.swap.then p.swap := by
  cases o <;> rfl

/-- `row_cmp` swap law. -/
theorem row_cmp_swap (a b : CsvRow) : row_cmp b a = (row_cmp a b).swap := by
  unfold row_cmp
  rw [str_cmp_swap a.year b.year, str_cmp_swap a.app_id b.app_id,
    str_cmp_swap a.sect b.sect, ← then_swap, ← then_swap]

/-- A `row_cmp` tie means the three key fields agree (the playtime field is
not compared). -/
theorem row_cmp_key_eq {a b : CsvRow} (h : row_cmp a b = .eq) :
    a.year = b.year ∧ a.app_id = b.app_id ∧ a.sect = b.sect := by
  unfold row_cmp at h
  rw [then_eq_eq] at h
  obtain ⟨h', hs⟩ := h
  rw [then_eq_eq] at h'
  exact ⟨str_cmp_eq h'.1, str_cmp_eq h'.2, str_cmp_eq hs⟩

/-- `row_cmp` only reads the three key fields (left congruence). -/
theorem row_cmp_congr_left {a b : CsvRow} (c : CsvRow) (h1 : a.year = b.year)
    (h2 : a.app_id = b.app_id) (h3 : a.sect = b.sect) :
    row_cmp a c = row_cmp b c := by
  unfold row_cmp
  rw [h1, h2, h3]

/-- `row_cmp` only reads the three key fields (right congruence). -/
theorem row_cmp_congr_right {b c : CsvRow} (a : CsvRow) (h1 : b.year = c.year)
    (h2 : b.app_id = c.app_id) (h3 : b.sect = c.sect) :
    row_cmp a b = row_cmp a c := by
  unfold row_cmp
  rw [h1, h2, h3]

/-- Strict `row_cmp` order is transitive. -/
theorem row_cmp_lt_trans {a b c : CsvRow} (h1 : row_cmp a b = .lt)
    (h2 : row_cmp b c = .lt) : row_cmp a c = .lt := by
  unfold row_cmp at h1 h2 ⊢
  rw [then_eq_lt] at h1 h2 ⊢
  rcases h1 with h1 | ⟨h1e, h1s⟩
  · rw [then_eq_lt] at h1
    rcases h2 with h2 | ⟨h2e, _⟩
    · rw [then_eq_lt] at h2
      left
      rw [then_eq_lt]
      rcases h1 with h1 | ⟨h1e, h1a⟩
      · rcases h2 with h2 | ⟨h2e, _⟩
        · exact Or.inl (str_cmp_lt_trans h1 h2)
        · rw [← str_cmp_eq h2e]; exact Or.inl h1
      · rcases h2 with h2 | ⟨h2e, h2a⟩
        · rw [str_cmp_eq h1e]; exact Or.inl h2
        · exact Or.inr ⟨by rw [str_cmp_eq h1e, str_cmp_eq h2e, str_cmp_self],
            str_cmp_lt_trans h1a h2a⟩
    · rw [then_eq_eq] at h2e
      left
      rw [then_eq_lt]
      rcases h1 with h1 | ⟨h1e, h1a⟩
      · rw [← str_cmp_eq h2e.1]; exact Or.inl h1
      · exact Or.inr ⟨by rw [str_cmp_eq h1e, ← str_cmp_eq h2e.1, str_cmp_self],
          by rw [← str_cmp_eq h2e.2]; exact h1a⟩
  · rw [then_eq_eq] at h1e
    rcases h2 with h2 | ⟨h2e, h2s⟩
    · rw [then_eq_lt] at h2
      left
      rw [then_eq_lt]
      rcases h2 with h2 | ⟨h2e, h2a⟩
      · rw [str_cmp_eq h1e.1]; exact Or.inl h2
      · exact Or.inr ⟨by rw [str_cmp_eq h1e.1, str_cmp_eq h2e, str_cmp_self],
          by rw [str_cmp_eq h1e.2]; exact h2a⟩
    · rw [then_eq_eq] at h2e
      right
      constructor
      · rw [then_eq_eq]
        exact ⟨by rw [str_cmp_eq h1e.1, str_cmp_eq h2e.1, str_cmp_self],
          by rw [str_cmp_eq h1e.2, str_cmp_eq h2e.2, str_cmp_self]⟩
      · exact str_cmp_lt_trans h1s h2s

/-- `RowLe` holds exactly when the comparison is `lt` or `eq`. -/
theorem row_le_iff {a b : CsvRow} :
    RowLe a b ↔ row_cmp a b = .lt ∨ row_cmp a b = .eq := by
  unfold RowLe
  cases row_cmp a b <;> simp

instance : IsTrans CsvRow RowLe :=
  ⟨by
    intro a b c h1 h2
    rw [row_le_iff] at h1 h2 ⊢
    rcases h1 with h1 | h1
    · rcases h2 with h2 | h2
      · exact Or.inl (row_cmp_lt_trans h1 h2)
      · obtain ⟨e1, e2, e3⟩ := row_cmp_key_eq h2
        rw [← row_cmp_congr_right a e1 e2 e3]
        exact Or.inl h1
    · obtain ⟨e1, e2, e3⟩ := row_cmp_key_eq h1
      rw [row_cmp_congr_left c e1 e2 e3]
      exact h2⟩

instance : IsTotal CsvRow RowLe :=
  ⟨by
    intro a b
    unfold RowLe
    cases h : row_cmp a b with
    | lt => exact Or.inl (by simp)
    | eq => exact Or.inl (by simp)
    | gt =>
      right
      rw [row_cmp_swap a b, h]
      decide⟩

/-- Two sorted lists that are permutations of each other and whose elements
admit no nontrivial ties are equal. -/
theorem eq_of_perm_of_sorted_antisymm {α : Type} {r : α → α → Prop} :
    ∀ {l₁ l₂ : List α}, l₁.Perm l₂ → l₁.Sorted r → l₂.Sorted r →
      (∀ a ∈ l₁, ∀ b ∈ l₁, r a b → r b a → a = b) → l₁ = l₂ := by
  intro l₁
  induction l₁ with
  | nil =>
    intro l₂ hp _ _ _
    exact (hp.symm.eq_nil).symm
  | cons a t ih =>
    intro l₂ hp hs1 hs2 hanti
    cases l₂ with
    | nil => exact absurd (hp.eq_nil) (by simp)
    | cons b t₂ =>
      by_cases hab : a = b
      · subst hab
        rw [ih hp.cons_inv hs1.of_cons hs2.of_cons
          (fun x hx y hy => hanti x (List.mem_cons_of_mem a hx) y
            (List.mem_cons_of_mem a hy))]
      · have hbL1 : b ∈ a :: t := hp.symm.subset (List.mem_cons_self b t₂)
        have hbt : b ∈ t :=
          (List.mem_cons.mp hbL1).resolve_left (fun h => hab h.symm)
        have hat2 : a ∈ t₂ :=
          (List.mem_cons.mp (hp.subset (List.mem_cons_self a t))).resolve_left
            hab
        exact absurd
          (hanti a (List.mem_cons_self a t) b hbL1
            (List.rel_of_sorted_cons hs1 b hbt)
            (List.rel_of_sorted_cons hs2 a hat2)) hab

/-- Claim C5 counterexample: the sort is stable and its comparator ignores
the playtime field, so two rows that tie on (year, identifier, section) but
differ in playtime keep their input order — rendering is NOT independent of
the input order of an equal multiset of rows. -/
theorem csv_sort_tie_counterexample :
    ([⟨"1", 1, "y", "s"⟩, ⟨"1", 2, "y", "s"⟩] : List CsvRow).Perm
      [⟨"1", 2, "y", "s"⟩, ⟨"1", 1, "y", "s"⟩] ∧
    csv_content [⟨"1", 1, "y", "s"⟩, ⟨"1", 2, "y", "s"⟩] ≠
      csv_content [⟨"1", 2, "y", "s"⟩, ⟨"1", 1, "y", "s"⟩] :=
  ⟨List.Perm.swap (⟨"1", 2, "y", "s"⟩ : CsvRow) (⟨"1", 1, "y", "s"⟩ : CsvRow)
    [], by decide⟩

/-- Claim C5 (amended): the rendered body is sorted ascending by
(year, identifier, raw untranslated section), with translation applied per
row after the order is fixed; rendering an already-sorted list produces the
same output; and rendering is input-order independent for row multisets in
which no two distinct rows tie on the full sort key (rows that tie while
differing in playtime keep their input order, because the sort is
stable). -/
theorem csv_sort_spec :
    (∀ rows : List CsvRow, (sort_rows rows).Sorted RowLe) ∧
    (∀ rows : List CsvRow, csv_content (sort_rows rows) = csv_content rows) ∧
    (∀ rows rows' : List CsvRow, rows.Perm rows' →
      (∀ a ∈ rows, ∀ b ∈ rows, row_cmp a b = .eq → a = b) →
      csv_content rows = csv_content rows') := by
  have hsorted : ∀ rows : List CsvRow, (sort_rows rows).Sorted RowLe :=
    fun rows => List.sorted_insertionSort RowLe rows
  refine ⟨hsorted, ?_, ?_⟩
  · intro rows
    unfold csv_content csv_body
    rw [show sort_rows (sort_rows rows) = sort_rows rows from
      List.Sorted.insertionSort_eq (hsorted rows)]
  · intro l₁ l₂ hp hinj
    have h1 : (sort_rows l₁).Perm l₁ := List.perm_insertionSort RowLe l₁
    have h2 : (sort_rows l₂).Perm l₂ := List.perm_insertionSort RowLe l₂
    have hanti : ∀ a ∈ sort_rows l₁, ∀ b ∈ sort_rows l₁,
        RowLe a b → RowLe b a → a = b := by
      intro a ha b hb hab hba
      apply hinj a (h1.subset ha) b (h1.subset hb)
      have hsw := row_cmp_swap a b
      cases hc : row_cmp a b with
      | eq => rfl
      | lt =>
        rw [hc] at hsw
        exact absurd hsw hba
      | gt => exact absurd hc hab
    have heq : sort_rows l₁ = sort_rows l₂ :=
      eq_of_perm_of_sorted_antisymm (h1.trans (hp.trans h2.symm))
        (hsorted l₁) (hsorted l₂) hanti
    unfold csv_content csv_body
    rw [heq]

/-- Witness for C5 (amended): two key-distinct rows render identically from
either input order. -/
theorem csv_sort_spec_witness :
    csv_content [⟨"2", 2, "y", "b"⟩, ⟨"1", 1, "y", "a"⟩] =
      csv_content [⟨"1", 1, "y", "a"⟩, ⟨"2", 2, "y", "b"⟩] :=
  csv_sort_spec.2.2 _ _
    (List.Perm.swap (⟨"1", 1, "y", "a"⟩ : CsvRow) (⟨"2", 2, "y", "b"⟩ : CsvRow)
      []) (by decide)

/- ### Key-order independence of the id collector (well-formed documents) -/

mutual
/-- Two documents differ only in the ordering of keys within their objects:
scalars must agree, arrays must be element-wise related, and each object's
entry list must be entry-wise related (same keys, related values) up to a
permutation. -/
def keyReorder : Json → Json → Prop
  | .null, .null => True
  | .bool a, .bool b => a = b
  | .num a, .num b => a = b
  | .str a, .str b => a = b
  | .arr l, .arr l' => reorderList l l'
  | .obj l, .obj l' => ∃ lm, reorderEntries l lm ∧ lm.Perm l'
  | _, _ => False

/-- Element-wise `keyReorder` on array contents. -/
def reorderList : List Json → List Json → Prop
  | [], [] => True
  | v :: t, w :: t' => keyReorder v w ∧ reorderList t t'
  | _, _ => False

/-- Entry-wise `keyReorder` on object entries, keys unchanged. -/
def reorderEntries : List (String × Json) → List (String × Json) → Prop
  | [], [] => True
  | (k, v) :: t, (k', w) :: t' => k = k' ∧ keyReorder v w ∧ reorderEntries t t'
  | _, _ => False
end

mutual
/-- Well-formed documents: every object has pairwise-distinct keys, as
guaranteed for any value produced by `serde_json` parsing. -/
def wfJson : Json → Prop
  | .obj l => (l.map Prod.fst).Nodup ∧ wfEntries l
  | .arr l => wfList l
  | _ => True

/-- Well-formedness of every value of an entry list. -/
def wfEntries : List (String × Json) → Prop
  | [] => True
  | (_, v) :: t => wfJson v ∧ wfEntries t

/-- Well-formedness of every element of an array. -/
def wfList : List Json → Prop
  | [] => True
  | v :: t => wfJson v ∧ wfList t
end

/-- Entry-wise reorder preserves the key list. -/
theorem reorderEntries_keys (l : List (String × Json)) :
    ∀ l', reorderEntries l l' → l.map Prod.fst = l'.map Prod.fst := by
  induction l with
  | nil =>
    intro l' h
    cases l' with
    | nil => rfl
    | cons q t' => exact False.elim h
  | cons p t ih =>
    intro l' h
    obtain ⟨k, v⟩ := p
    cases l' with
    | nil => exact False.elim h
    | cons q t' =>
      obtain ⟨k', w⟩ := q
      have h' : k = k' ∧ keyReorder v w ∧ reorderEntries t t' := h
      simp only [List.map_cons]
      rw [h'.1, ih t' h'.2.2]

/-- Entry-wise reorder relates the results of `map_get` pointwise. -/
theorem reorderEntries_map_get (key : String) (l : List (String × Json)) :
    ∀ l', reorderEntries l l' →
      (map_get key l = none ∧ map_get key l' = none) ∨
      ∃ v w, map_get key l = some v ∧ map_get key l' = some w ∧
        keyReorder v w := by
  induction l with
  | nil =>
    intro l' h
    cases l' with
    | nil => exact Or.inl ⟨rfl, rfl⟩
    | cons q t' => exact False.elim h
  | cons p t ih =>
    intro l' h
    obtain ⟨k, v⟩ := p
    cases l' with
    | nil => exact False.elim h
    | cons q t' =>
      obtain ⟨k', w⟩ := q
      have h' : k = k' ∧ keyReorder v w ∧ reorderEntries t t' := h
      by_cases hk : k = key
      · have hk' : k' = key := h'.1.symm.trans hk
        refine Or.inr ⟨v, w, ?_, ?_, h'.2.1⟩
        · simp [map_get, hk]
        · simp [map_get, hk']
      · have hk' : ¬ k' = key := fun hh => hk (h'.1.trans hh)
        simp only [map_get, if_neg hk, if_neg hk']
        exact ih t' h'.2.2

/-- `map_get` is stable under permutation of an entry list with distinct
keys. -/
theorem map_get_perm (key : String) :
    ∀ {l l' : List (String × Json)}, l.Perm l' → (l.map Prod.fst).Nodup →
      map_get key l = map_get key l' := by
  intro l l' hp
  induction hp with
  | nil => intro _; rfl
  | cons x p ih =>
    intro hnd
    obtain ⟨k, v⟩ := x
    rw [List.map_cons] at hnd
    simp only [map_get]
    by_cases hk : k = key
    · rw [if_pos hk, if_pos hk]
    · rw [if_neg hk, if_neg hk]
      exact ih (List.nodup_cons.mp hnd).2
  | swap x y l =>
    intro hnd
    obtain ⟨k1, v1⟩ := x
    obtain ⟨k2, v2⟩ := y
    rw [List.map_cons, List.map_cons] at hnd
    have hne : k2 ≠ k1 := by
      intro h
      exact (List.nodup_cons.mp hnd).1 (by rw [h]; exact List.mem_cons_self k1 _)
    simp only [map_get]
    by_cases h2 : k2 = key
    · have h1 : ¬ k1 = key := fun h1 => hne (h2.trans h1.symm)
      rw [if_pos h2, if_neg h1, if_pos h2]
    · by_cases h1 : k1 = key
      · rw [if_neg h2, if_pos h1, if_pos h1]
      · rw [if_neg h2, if_neg h1, if_neg h1, if_neg h2]
  | trans p1 p2 ih1 ih2 =>
    intro hnd
    exact (ih1 hnd).trans (ih2 ((p1.map Prod.fst).nodup hnd))

/-- `keyReorder` inverts on numbers. -/
theorem keyReorder_num_left {n : JNum} {w : Json}
    (h : keyReorder (.num n) w) : w = .num n := by
  cases w with
  | num b => have hb : n = b := h; rw [hb]
  | null => exact False.elim h
  | bool b => exact False.elim h
  | str s => exact False.elim h
  | arr l => exact False.elim h
  | obj l => exact False.elim h

/-- The single-field id harvest is invariant under entry-wise reorder. -/
theorem field_ids_reorder (key : String) {l l' : List (String × Json)}
    (h : reorderEntries l l') :
    (match map_get key l with
     | some (.num n) =>
       match as_u64 n with
       | some id => {toString id}
       | none => (∅ : Finset String)
     | _ => (∅ : Finset String)) =
    (match map_get key l' with
     | some (.num n) =>
       match as_u64 n with
       | some id => {toString id}
       | none => (∅ : Finset String)
     | _ => (∅ : Finset String)) := by
  rcases reorderEntries_map_get key l l' h with ⟨h1, h2⟩ | ⟨v, w, h1, h2, hvw⟩
  · rw [h1, h2]
  · rw [h1, h2]
    cases v with
    | num n => rw [keyReorder_num_left hvw]
    | null => cases w <;> first | exact False.elim hvw | rfl
    | bool b => cases w <;> first | exact False.elim hvw | rfl
    | str s => cases w <;> first | exact False.elim hvw | rfl
    | arr la => cases w <;> first | exact False.elim hvw | rfl
    | obj lo => cases w <;> first | exact False.elim hvw | rfl

/-- The node-level id harvest is invariant under entry-wise reorder. -/
theorem node_app_ids_reorder {l l' : List (String × Json)}
    (h : reorderEntries l l') : node_app_ids l = node_app_ids l' := by
  unfold node_app_ids
  rw [field_ids_reorder "appid" h, field_ids_reorder "app_id" h]

/-- The node-level id harvest is invariant under permutation of an entry
list with distinct keys. -/
theorem node_app_ids_perm {l l' : List (String × Json)} (hp : l.Perm l')
    (hnd : (l.map Prod.fst).Nodup) : node_app_ids l = node_app_ids l' := by
  unfold node_app_ids
  rw [map_get_perm "appid" hp hnd, map_get_perm "app_id" hp hnd]

/-- The union of collected ids over an entry list is invariant under
permutation. -/
theorem extract_entries_perm :
    ∀ {l l' : List (String × Json)}, l.Perm l' →
      extract_app_ids_entries l = extract_app_ids_entries l' := by
  intro l l' hp
  induction hp with
  | nil => rfl
  | cons x p ih =>
    obtain ⟨k, v⟩ := x
    show extract_app_ids_go v ∪ _ = extract_app_ids_go v ∪ _
    rw [ih]
  | swap x y l =>
    obtain ⟨k1, v1⟩ := x
    obtain ⟨k2, v2⟩ := y
    show extract_app_ids_go v2 ∪ (extract_app_ids_go v1 ∪ _) =
      extract_app_ids_go v1 ∪ (extract_app_ids_go v2 ∪ _)
    rw [Finset.union_left_comm]
  | trans p1 p2 ih1 ih2 => exact ih1.trans ih2

mutual
/-- Collected id sets agree on key-reordered well-formed documents. -/
theorem keyReorder_ids : ∀ (v w : Json), wfJson v → keyReorder v w →
    extract_app_ids_go v = extract_app_ids_go w
  | .null, w, _, h => by
    cases w <;> first | rfl | exact False.elim h
  | .bool a, w, _, h => by
    cases w <;> first | rfl | exact False.elim h
  | .num a, w, _, h => by
    cases w <;> first | rfl | exact False.elim h
  | .str a, w, _, h => by
    cases w <;> first | rfl | exact False.elim h
  | .arr l, w, hwf, h => by
    cases w with
    | arr l' =>
      show extract_app_ids_elems l = extract_app_ids_elems l'
      exact reorderList_ids l l' hwf h
    | null => exact False.elim h
    | bool b => exact False.elim h
    | num n => exact False.elim h
    | str s => exact False.elim h
    | obj o => exact False.elim h
  | .obj l, w, hwf, h => by
    cases w with
    | obj l' =>
      obtain ⟨lm, hre, hperm⟩ := h
      have hwf' : (l.map Prod.fst).Nodup ∧ wfEntries l := hwf
      have hnd_lm : (lm.map Prod.fst).Nodup :=
        reorderEntries_keys l lm hre ▸ hwf'.1
      show node_app_ids l ∪ extract_app_ids_entries l =
        node_app_ids l' ∪ extract_app_ids_entries l'
      rw [node_app_ids_reorder hre, node_app_ids_perm hperm hnd_lm,
        reorderEntries_ids l lm hwf'.2 hre, extract_entries_perm hperm]
    | null => exact False.elim h
    | bool b => exact False.elim h
    | num n => exact False.elim h
    | str s => exact False.elim h
    | arr a => exact False.elim h

/-- Entry-wise reorder preserves the id union over object entries. -/
theorem reorderEntries_ids : ∀ (l l' : List (String × Json)), wfEntries l →
    reorderEntries l l' →
    extract_app_ids_entries l = extract_app_ids_entries l'
  | [], [], _, _ => rfl
  | [], _ :: _, _, h => False.elim h
  | _ :: _, [], _, h => False.elim h
  | (k, v) :: t, (k', w) :: t', hwf, h => by
    have h' : k = k' ∧ keyReorder v w ∧ reorderEntries t t' := h
    have hwf' : wfJson v ∧ wfEntries t := hwf
    show extract_app_ids_go v ∪ extract_app_ids_entries t =
      extract_app_ids_go w ∪ extract_app_ids_entries t'
    rw [keyReorder_ids v w hwf'.1 h'.2.1, reorderEntries_ids t t' hwf'.2 h'.2.2]

/-- Element-wise reorder preserves the id union over array elements. -/
theorem reorderList_ids : ∀ (l l' : List Json), wfList l → reorderList l l' →
    extract_app_ids_elems l = extract_app_ids_elems l'
  | [], [], _, _ => rfl
  | [], _ :: _, _, h => False.elim h
  | _ :: _, [], _, h => False.elim h
  | v :: t, w :: t', hwf, h => by
    have h' : keyReorder v w ∧ reorderList t t' := h
    have hwf' : wfJson v ∧ wfList t := hwf
    show extract_app_ids_go v ∪ extract_app_ids_elems t =
      extract_app_ids_go w ∪ extract_app_ids_elems t'
    rw [keyReorder_ids v w hwf'.1 h'.1, reorderList_ids t t' hwf'.2 h'.2]
end

/-- Claim C7: `extract_app_ids` is deterministic — running it twice on the
same document yields equal sets — and, for well-formed documents (distinct
keys in every object, as `serde_json` parsing guarantees), it is invariant
under any reordering of the keys inside the document's objects. -/
theorem collect_identifiers_order_independent :
    (∀ d : Json, extract_app_ids d = extract_app_ids d) ∧
    (∀ d₁ d₂ : Json, wfJson d₁ → keyReorder d₁ d₂ →
      extract_app_ids d₁ = extract_app_ids d₂) :=
  ⟨fun _ => rfl, fun d₁ d₂ hwf h => keyReorder_ids d₁ d₂ hwf h⟩

/-- Witness for C7: swapping the two keys of a concrete object leaves the
collected id set unchanged. -/
theorem collect_identifiers_order_independent_witness :
    extract_app_ids (.obj [("app_id", .num (.int 7)), ("z", .num (.int 1))]) =
      extract_app_ids
        (.obj [("z", .num (.int 1)), ("app_id", .num (.int 7))]) :=
  collect_identifiers_order_independent.2 _ _
    ⟨by decide, trivial, trivial, trivial⟩
    ⟨[("app_id", .num (.int 7)), ("z", .num (.int 1))],
      ⟨rfl, rfl, rfl, rfl, trivial⟩,
      List.Perm.swap (("z", Json.num (JNum.int 1)) : String × Json)
        (("app_id", Json.num (JNum.int 7)) : String × Json) []⟩

/- ### Decimal rendering of array indices -/

/-- `Nat.digitChar` maps a digit below 10 to an ASCII digit character. -/
theorem digitChar_isDigit {d : Nat} (h : d < 10) :
    (Nat.digitChar d).isDigit = true := by
  interval_cases d <;> decide

/-- The numeric value encoded by `Nat.digitChar` of a digit below 10. -/
theorem digitChar_val {d : Nat} (h : d < 10) :
    (Nat.digitChar d).toNat - 48 = d := by
  interval_cases d <;> decide

/-- `digitsRec` on a single digit. -/
theorem digitsRec_of_lt {n : Nat} (h : n < 10) :
    digitsRec n = [Nat.digitChar n] := by
  rw [digitsRec, if_pos h]

/-- `digitsRec` on a multi-digit number. -/
theorem digitsRec_of_ge {n : Nat} (h : ¬ n < 10) :
    digitsRec n = digitsRec (n / 10) ++ [Nat.digitChar (n % 10)] := by
  conv_lhs => rw [digitsRec]
  rw [if_neg h]

/-- The fuelled core loop of `Nat.toDigits` produces exactly the decimal
digit list followed by the accumulator, whenever the fuel suffices. -/
theorem toDigitsCore_eq_digitsRec :
    ∀ (fuel n : Nat) (ds : List Char), n < fuel →
      Nat.toDigitsCore 10 fuel n ds = digitsRec n ++ ds := by
  intro fuel
  induction fuel with
  | zero => intro n ds h; exact absurd h (Nat.not_lt_zero n)
  | succ fuel ih =>
    intro n ds h
    show (if n / 10 = 0 then Nat.digitChar (n % 10) :: ds
      else Nat.toDigitsCore 10 fuel (n / 10) (Nat.digitChar (n % 10) :: ds)) =
      digitsRec n ++ ds
    by_cases h0 : n / 10 = 0
    · have hn : n < 10 := by omega
      rw [if_pos h0, digitsRec_of_lt hn, Nat.mod_eq_of_lt hn]
      rfl
    · have hge : ¬ n < 10 := by omega
      have hlt : n / 10 < fuel := by omega
      rw [if_neg h0, ih (n / 10) _ hlt, digitsRec_of_ge hge,
        List.append_assoc]
      rfl

/-- The decimal digit list of `n` is nonempty, consists of digit characters,
and folds back to `n` under the positional-value step. -/
theorem digitsRec_spec (n : Nat) :
    digitsRec n ≠ [] ∧ (digitsRec n).all Char.isDigit = true ∧
    ∀ acc : Nat,
      (digitsRec n).foldl (fun acc c => acc * 10 + (c.toNat - 48)) acc =
        acc * 10 ^ (digitsRec n).length + n := by
  induction n using Nat.strong_induction_on with
  | _ n ih =>
    by_cases h : n < 10
    · rw [digitsRec_of_lt h]
      refine ⟨by simp, by simp [digitChar_isDigit h], ?_⟩
      intro acc
      show acc * 10 + ((Nat.digitChar n).toNat - 48) = acc * 10 ^ 1 + n
      rw [digitChar_val h, pow_one]
    · rw [digitsRec_of_ge h]
      obtain ⟨ih1, ih2, ih3⟩ := ih (n / 10) (Nat.div_lt_self (by omega) (by omega))
      have hd : (Nat.digitChar (n % 10)).isDigit = true :=
        digitChar_isDigit (Nat.mod_lt n (by omega))
      refine ⟨by simp, by rw [List.all_append, ih2]; simp [hd], ?_⟩
      intro acc
      rw [List.foldl_append]
      show (digitsRec (n / 10)).foldl _ acc * 10 +
          ((Nat.digitChar (n % 10)).toNat - 48) = _
      rw [ih3 acc, digitChar_val (Nat.mod_lt n (by omega)),
        List.length_append]
      show (acc * 10 ^ (digitsRec (n / 10)).length + n / 10) * 10 + n % 10 =
        acc * 10 ^ ((digitsRec (n / 10)).length + 1) + n
      calc (acc * 10 ^ (digitsRec (n / 10)).length + n / 10) * 10 + n % 10
          = acc * (10 ^ (digitsRec (n / 10)).length * 10) +
              (10 * (n / 10) + n % 10) := by ring
        _ = acc * 10 ^ ((digitsRec (n / 10)).length + 1) + n := by
              rw [Nat.div_add_mod, pow_succ]

/-- The character data of `toString (n : Nat)` is the decimal digit list. -/
theorem toString_nat_data (n : Nat) : (toString n).data = digitsRec n := by
  show (Nat.repr n).data = digitsRec n
  unfold Nat.repr
  rw [show Nat.toDigits 10 n = digitsRec n from by
    unfold Nat.toDigits
    rw [toDigitsCore_eq_digitsRec (n + 1) n [] (Nat.lt_succ_self n),
      List.append_nil]]
  rfl

/-- Rust's `usize::from_str` inverts the decimal rendering for every value
representable as `u64`. -/
theorem parse_usize_toString (i : Nat) (h : i < 2 ^ 64) :
    parse_usize (toString i) = some i := by
  obtain ⟨hne, hdig, hfold⟩ := digitsRec_spec i
  unfold parse_usize
  rw [toString_nat_data]
  cases hdd : digitsRec i with
  | nil => exact absurd hdd hne
  | cons c rest =>
    rw [hdd] at hdig hfold
    have hc : c.isDigit = true := by
      rw [List.all_cons, Bool.and_eq_true] at hdig
      exact hdig.1
    split
    · rename_i r heq
      have hplus : c = '+' := (List.cons.injEq _ _ _ _ ▸ heq).1
      rw [hplus] at hc
      exact absurd hc (by decide)
    · rw [if_neg (by simp), if_pos hdig]
      have hv : (c :: rest).foldl
          (fun acc c => acc * 10 + (c.toNat - 48)) 0 = i := by
        have := hfold 0
        simpa using this
      rw [hv, if_pos h]

/-- A months-index section is never the aggregate total section. -/
theorem month_section_ne (i : Nat) :
    "playtime_stats.months.month_" ++ toString i ≠ "playtime_stats.games" := by
  intro hEq
  have hlen : ("playtime_stats.months.month_" ++ toString i).data.length =
      ("playtime_stats.games").data.length := by rw [hEq]
  have hd : ("playtime_stats.months.month_" ++ toString i).data =
      ("playtime_stats.months.month_").data ++ (toString i).data := rfl
  rw [hd, List.length_append,
    show ("playtime_stats.months.month_").data.length = 28 from rfl,
    show ("playtime_stats.games").data.length = 20 from rfl] at hlen
  omega

/-- Stripping the months prefix from a section built over it returns the
appended remainder. -/
theorem strip_month_pre_append (s : String) :
    strip_month_pre ("playtime_stats.months.month_" ++ s) = some s := by
  unfold strip_month_pre str_starts_with str_drop
  have hd : ("playtime_stats.months.month_" ++ s).data =
      ("playtime_stats.months.month_").data ++ s.data := rfl
  rw [hd, if_pos (List.isPrefixOf_iff_prefix.mpr (List.prefix_append _ _)),
    List.drop_left' (show ("playtime_stats.months.month_").data.length = 28
      from rfl)]

/-- Translating the section of a months-array record at index `i` yields the
`i`-th month-table entry, for every index representable as `usize`. -/
theorem convert_month_index (i : Nat) (h : i < 2 ^ 64) :
    convert_section_to_month ("playtime_stats.months.month_" ++ toString i) =
      get_month_name i := by
  unfold convert_section_to_month
  rw [if_neg (month_section_ne i), strip_month_pre_append]
  show (match parse_usize (toString i) with
    | some month_num => get_month_name month_num
    | none => "playtime_stats.months.month_" ++ toString i) = get_month_name i
  rw [parse_usize_toString i h]

/-- With distinct keys, membership determines `map_get`. -/
theorem map_get_of_mem_nodup :
    ∀ {l : List (String × Json)} {k : String} {v : Json},
      (l.map Prod.fst).Nodup → (k, v) ∈ l → map_get k l = some v := by
  intro l
  induction l with
  | nil => intro k v _ hm; exact absurd hm (List.not_mem_nil _)
  | cons p t ih =>
    intro k v hnd hm
    obtain ⟨k', w⟩ := p
    rw [List.map_cons] at hnd
    rcases List.mem_cons.mp hm with hEq | hmt
    · injection hEq with h1 h2
      show (if k' = k then some w else map_get k t) = some v
      rw [if_pos h1.symm, h2]
    · have hk' : k' ≠ k := by
        intro hEq2
        apply (List.nodup_cons.mp hnd).1
        rw [hEq2]
        exact List.mem_map.mpr ⟨(k, v), hmt, rfl⟩
      show (if k' = k then some w else map_get k t) = some v
      rw [if_neg hk']
      exact ih (List.nodup_cons.mp hnd).2 hmt

/-- Under a path ending in "months", the element at position `i` of an array
is traversed with its `month_<i>` placeholder appended. -/
theorem months_index_rule (v : Json) (t : List Json) (i : Nat)
    (path : List String) (h : path.getLast? = some "months") :
    extract_playtime_elems (v :: t) i path =
      extract_playtime_go v (path ++ ["month_" ++ toString i]) ++
        extract_playtime_elems t (i + 1) path := by
  show (if path.getLast? = some "months" then
      extract_playtime_go v (path ++ ["month_" ++ toString i])
    else extract_playtime_go v path) ++ _ = _
  rw [if_pos h]

mutual
/-- On well-formed documents the extractor emits exactly what the variant
without the month-overwrite rule emits: the overwritten path is only ever
passed to the recursion on the `rtime_month` number itself, which emits
nothing. -/
theorem go_plain_eq : ∀ (v : Json) (path : List String), wfJson v →
    extract_playtime_go v path = extract_playtime_go_plain v path
  | .null, _, _ => rfl
  | .bool _, _, _ => rfl
  | .num _, _, _ => rfl
  | .str _, _, _ => rfl
  | .arr l, path, hwf => by
    show extract_playtime_elems l 0 path = extract_playtime_elems_plain l 0 path
    exact elems_plain_eq l 0 path hwf
  | .obj m, path, hwf => by
    have hwf' : (m.map Prod.fst).Nodup ∧ wfEntries m := hwf
    show (tryRecord m path).toList ++ extract_playtime_entries m m path =
      (tryRecord m path).toList ++ extract_playtime_entries_plain m path
    rw [entries_plain_eq m m path hwf'.2
      (fun v' hv' => map_get_of_mem_nodup hwf'.1 hv')]

/-- The object loops agree whenever each iterated `rtime_month` entry is the
one `map_get` finds in the full map (true under distinct keys). -/
theorem entries_plain_eq :
    ∀ (l full : List (String × Json)) (path : List String), wfEntries l →
      (∀ v', ("rtime_month", v') ∈ l → map_get "rtime_month" full = some v') →
      extract_playtime_entries l full path = extract_playtime_entries_plain l path
  | [], _, _, _, _ => rfl
  | (key, v) :: t, full, path, hwf, hmem => by
    have hwf' : wfJson v ∧ wfEntries t := hwf
    show extract_playtime_go v (child_path full path key) ++
        extract_playtime_entries t full path =
      extract_playtime_go_plain v (child_path_plain path key) ++
        extract_playtime_entries_plain t path
    rw [entries_plain_eq t full path hwf'.2
      (fun v' hv' => hmem v' (List.mem_cons_of_mem _ hv'))]
    unfold child_path child_path_plain
    by_cases hallow : key = "games" ∨ key = "months" ∨ key = "playtime_stats"
    · rw [if_pos hallow, if_pos hallow, go_plain_eq v (path ++ [key]) hwf'.1]
    · rw [if_neg hallow, if_neg hallow]
      by_cases hfire : key = "rtime_month" ∧
          ((path.getLast?.map (fun s => str_starts_with s "month_")).getD
            false) = true
      · rw [if_pos hfire]
        cases hmg : map_get "rtime_month" full with
        | none =>
          show extract_playtime_go v path ++ _ = _
          rw [go_plain_eq v path hwf'.1]
        | some x =>
          have hv : map_get "rtime_month" full = some v :=
            hmem v (by rw [← hfire.1]; exact List.mem_cons_self _ _)
          rw [hmg] at hv
          cases Option.some.inj hv
          cases v with
          | num n => rfl
          | null =>
            show extract_playtime_go (.null) path ++ _ = _
            rfl
          | bool b =>
            show extract_playtime_go (.bool b) path ++ _ = _
            rfl
          | str s =>
            show extract_playtime_go (.str s) path ++ _ = _
            rfl
          | arr a =>
            show extract_playtime_go (.arr a) path ++ _ = _
            rw [go_plain_eq (.arr a) path hwf'.1]
          | obj o =>
            show extract_playtime_go (.obj o) path ++ _ = _
            rw [go_plain_eq (.obj o) path hwf'.1]
      · rw [if_neg hfire, go_plain_eq v path hwf'.1]

/-- The array loops agree element-wise. -/
theorem elems_plain_eq :
    ∀ (l : List Json) (i : Nat) (path : List String), wfList l →
      extract_playtime_elems l i path = extract_playtime_elems_plain l i path
  | [], _, _, _ => rfl
  | v :: t, i, path, hwf => by
    have hwf' : wfJson v ∧ wfList t := hwf
    show (if path.getLast? = some "months" then
        extract_playtime_go v (path ++ ["month_" ++ toString i])
      else extract_playtime_go v path) ++ extract_playtime_elems t (i + 1) path =
      (if path.getLast? = some "months" then
        extract_playtime_go_plain v (path ++ ["month_" ++ toString i])
      else extract_playtime_go_plain v path) ++
        extract_playtime_elems_plain t (i + 1) path
    rw [elems_plain_eq t (i + 1) path hwf'.2]
    by_cases hm : path.getLast? = some "months"
    · rw [if_pos hm, if_pos hm, go_plain_eq v _ hwf'.1]
    · rw [if_neg hm, if_neg hm, go_plain_eq v path hwf'.1]
end

/-- Claim C1 (amended): the timestamp-to-`%Y-%m` conversion never alters the
section of any emitted record — on every well-formed document the extractor
emits exactly what the variant with the overwrite rule removed emits,
because the overwritten path is only passed into the recursion on the
`rtime_month` number itself, which emits nothing.  Under a path ending in
"months", the element at every index `i` is traversed with its `month_<i>`
placeholder appended, and translating the resulting months section yields
the `i`-th month-table entry — determined by the array index, independent of
the timestamp, for every index representable as `usize`. -/
theorem month_overwrite_dead_code :
    (∀ (v : Json) (path : List String), wfJson v →
      extract_playtime_go v path = extract_playtime_go_plain v path) ∧
    (∀ (v : Json) (t : List Json) (i : Nat) (path : List String),
      path.getLast? = some "months" →
      extract_playtime_elems (v :: t) i path =
        extract_playtime_go v (path ++ ["month_" ++ toString i]) ++
          extract_playtime_elems t (i + 1) path) ∧
    (∀ i : Nat, i < 2 ^ 64 →
      convert_section_to_month ("playtime_stats.months.month_" ++ toString i) =
        get_month_name i) :=
  ⟨go_plain_eq, months_index_rule, convert_month_index⟩

/-- Witness for C1 (amended): the three parts applied to a concrete month
object (whose `rtime_month` overwrite branch actually fires), a concrete
months array, and the index 2. -/
theorem month_overwrite_dead_code_witness :
    extract_playtime_go
      (.obj [("appid", .num (.int 1)),
        ("relative_game_stats",
          .obj [("total_playtime_seconds", .num (.int 5))]),
        ("rtime_month", .num (.int 1709300000))])
      ["playtime_stats", "months", "month_0"] =
      extract_playtime_go_plain
        (.obj [("appid", .num (.int 1)),
          ("relative_game_stats",
            .obj [("total_playtime_seconds", .num (.int 5))]),
          ("rtime_month", .num (.int 1709300000))])
        ["playtime_stats", "months", "month_0"] ∧
    extract_playtime_elems
      [.obj [("appid", .num (.int 1)),
        ("relative_game_stats",
          .obj [("total_playtime_seconds", .num (.int 5))]),
        ("rtime_month", .num (.int 1709300000))]] 0
      ["playtime_stats", "months"] =
      extract_playtime_go
        (.obj [("appid", .num (.int 1)),
          ("relative_game_stats",
            .obj [("total_playtime_seconds", .num (.int 5))]),
          ("rtime_month", .num (.int 1709300000))])
        (["playtime_stats", "months"] ++ ["month_" ++ toString 0]) ++
        extract_playtime_elems [] 1 ["playtime_stats", "months"] ∧
    convert_section_to_month ("playtime_stats.months.month_" ++ toString 2) =
      get_month_name 2 :=
  ⟨month_overwrite_dead_code.1 _ _
      ⟨by decide, trivial, ⟨by decide, trivial, trivial⟩, trivial, trivial⟩,
    month_overwrite_dead_code.2.1 _ _ 0 _ rfl,
    month_overwrite_dead_code.2.2 2 (by decide)⟩
